import Mathlib

/-!
Verification of the candidate overlap-function selection pipeline of
OVERLAP_PROBE_EPROFILE against its natural-language specification.

The numerical core is shallowly embedded over exact rationals:
NumPy float arrays become List ℚ (vectors) or List (List ℚ) (matrices,
row major), boolean arrays become List Bool or 0/1-valued List ℚ where
the source mixes booleans with float zero-fills.  Transcendental
operations of the source (10 ** x, log10, sqrt inside std) do not have
computable rational counterparts; wherever a claim does not depend on
their analytic values they are abstracted as explicit function
parameters (named pow10 and the like below) or the already-computed
array is taken as a parameter, exactly at the boundary that the
original function receives or produces it.  Each definition documents
the source function and lines it translates.
-/

namespace OverlapProbe

/-- Truth value as the rational 0 or 1, matching how NumPy treats a
boolean array inside arithmetic and np.sum. -/
def boolToQ (b : Bool) : ℚ := if b then 1 else 0

/-- Column j of a row-major matrix, with NumPy out-of-range entries
defaulting to 0 (all uses in the development stay in range).
Models the NumPy column view ovs [ : , j ]. -/
def colD (m : List (List ℚ)) (j : ℕ) : List ℚ :=
  m.map (fun row => row.getD j 0)

/-- Minimum of a list with default 0 for the empty list; models
np.nanmin / np.min on a vector without NaNs. -/
def listMinD (l : List ℚ) : ℚ :=
  match l with
  | [] => 0
  | h :: t => t.foldl min h

/-- Maximum of a list with default 0 for the empty list; models
np.nanmax / np.max on a vector without NaNs. -/
def listMaxD (l : List ℚ) : ℚ :=
  match l with
  | [] => 0
  | h :: t => t.foldl max h

/-- Arithmetic mean with the empty list sent to 0; models np.nanmean
on a NaN-free vector. -/
def listMeanD (l : List ℚ) : ℚ := l.sum / l.length

/-- Piecewise-linear interpolation through a list of (position, value)
pairs whose positions are strictly increasing, clamped to the first
value below the first position and to the last value above the last
position.  Models np.interp ( x , xp , fp ) with xp and fp zipped. -/
def interpPairs (x : ℚ) : List (ℚ × ℚ) → ℚ
  | [] => 0
  | [(_, y)] => y
  | (x0, y0) :: (x1, y1) :: rest =>
      if x ≤ x0 then y0
      else if x ≤ x1 then y0 + (y1 - y0) * (x - x0) / (x1 - x0)
      else interpPairs x ((x1, y1) :: rest)

/-- The rank positions linspace ( 1/(2n) , (2n-1)/(2n) , n ), that is
(2k+1)/(2n) for k = 0 .. n-1, used by sort_samples.quantile. -/
def rankPositions (n : ℕ) : List ℚ :=
  (List.range n).map (fun (k : ℕ) => (2 * (k : ℚ) + 1) / (2 * n))

/-- Translation of sort_samples.quantile (sort_samples.py lines
356-362): sort the sample and linearly interpolate the requested
quantile over the rank positions (2k-1)/(2n), k = 1..n. -/
def quantile (x : List ℚ) (q : ℚ) : ℚ :=
  let y := x.insertionSort (· ≤ ·)
  interpPairs q ((rankPositions x.length).zip y)

/-- Translation of sort_samples.prctile (sort_samples.py lines
364-366). -/
def prctile (x : List ℚ) (p : ℚ) : ℚ := quantile x (p / 100)

/-- Modelled from the spec: NumPy's default percentile (the common
linear, type-7 convention), which the spec names as the convention the
code must NOT follow: the q-quantile is the interpolant of the sorted
sample at the fractional position q * (n - 1).  Present only for
comparison with the quantile translation above. -/
def npPercentileLinear (x : List ℚ) (q : ℚ) : ℚ :=
  let y := x.insertionSort (· ≤ ·)
  let h := q * ((x.length : ℚ) - 1)
  let f := Int.toNat ⌊h⌋
  y.getD f 0 + (h - ((⌊h⌋ : ℤ) : ℚ)) * (y.getD (f + 1) 0 - y.getD f 0)

/-- Per-bin percentile vector over the stack of curves: entry j is
prctile ( ovs [ : , j ] , p ).  Models the accumulation loop of
sort_samples.remove_outliers lines 318-328. -/
def pcList (ovs : List (List ℚ)) (rng : List ℚ) (p : ℚ) : List ℚ :=
  (List.range rng.length).map (fun j => prctile (colD ovs j) p)

/-- Upper whisker fence pc50 + w * (pc75 - pc25), bin-wise
(sort_samples.py line 331). -/
def outliersPlus (ovs : List (List ℚ)) (rng : List ℚ) (w : ℚ) : List ℚ :=
  (List.range rng.length).map (fun j =>
    prctile (colD ovs j) 50 + w * (prctile (colD ovs j) 75 - prctile (colD ovs j) 25))

/-- Lower whisker fence pc50 - w * (pc75 - pc25), bin-wise
(sort_samples.py line 333). -/
def outliersMinus (ovs : List (List ℚ)) (rng : List ℚ) (w : ℚ) : List ℚ :=
  (List.range rng.length).map (fun j =>
    prctile (colD ovs j) 50 - w * (prctile (colD ovs j) 75 - prctile (colD ovs j) 25))

/-- The fence test applied to one curve (sort_samples.py line 341):
the curve passes when no bin falls below the lower fence and no bin
rises above the upper fence. -/
def rowPasses (row minus plus : List ℚ) : Bool :=
  !(((row.zip minus).any (fun pr => decide (pr.1 < pr.2))) ||
    ((row.zip plus).any (fun pr => decide (pr.2 < pr.1))))

/-- Bin-wise mean over the rows of a stack, length nbins; models
np.nanmean ( stack , axis = 0 ) for a NaN-free 2-D stack.  (When the
source reaches this point with no passing curve the stack is still the
1-D zeros seed and NumPy collapses it to the scalar 0.0; the model
keeps the zero vector, which no claim exercises.) -/
def meanRows (stack : List (List ℚ)) (nbins : ℕ) : List ℚ :=
  (List.range nbins).map (fun j => (stack.map (fun row => row.getD j 0)).sum / stack.length)

/-- Translation of sort_samples.remove_outliers (sort_samples.py lines
310-353).  The returned triple is ( ov_final [ 1 : , : ] ,
np.nanmean ( ov_final , axis = 0 ) , outlier_pass_inds ), where
ov_final is seeded with np.zeros ( len ( rng ) ) and every curve that
passes the whisker-fence test is stacked onto it in order. -/
def remove_outliers (ovs : List (List ℚ)) (rng : List ℚ) (w : ℚ) :
    List (List ℚ) × List ℚ × List Bool :=
  let minus := outliersMinus ovs rng w
  let plus := outliersPlus ovs rng w
  let outlier_pass_inds := ovs.map (fun row => rowPasses row minus plus)
  let ov_final := (List.replicate rng.length (0 : ℚ)) ::
    ovs.filter (fun row => rowPasses row minus plus)
  (ov_final.drop 1, meanRows ov_final rng.length, outlier_pass_inds)

/-- Translation of np.arange ( a , b , d ) for a positive step d over
exact rationals: the values a + k * d for k = 0 .. ceil((b-a)/d) - 1. -/
def arangeQ (a b d : ℚ) : List ℚ :=
  (List.range (Int.toNat ⌈(b - a) / d⌉)).map (fun k => a + k * d)

/-- The fit-length grid fl of find_candidate_functions.check_fits
(find_candidate_functions.py line 91): np.arange ( min_fit_length ,
max_fit_length , d_fit_length ). -/
def flGrid (min_fit_length max_fit_length d_fit_length : ℚ) : List ℚ :=
  arangeQ min_fit_length max_fit_length d_fit_length

/-- The fit-begin grid fb of find_candidate_functions.check_fits
(find_candidate_functions.py line 93): np.arange ( min_fit_range ,
max_available_fit_range , d_fit_range ). -/
def fbGrid (min_fit_range max_available_fit_range d_fit_range : ℚ) : List ℚ :=
  arangeQ min_fit_range max_available_fit_range d_fit_range

/-- The (wbegin, wstop) pairs before deletion, in the order produced by
np.repeat ( fit_begin , len ( fit_length ) ) and np.tile ( fit_length ,
len ( fit_begin ) ) with wstop = wbegin + wlen
(find_candidate_functions.py lines 384-388). -/
def candidatePairs (fit_length fit_begin : List ℚ) : List (ℚ × ℚ) :=
  fit_begin.flatMap (fun b => fit_length.map (fun l => (b, b + l)))

/-- The (wbegin, wstop) pairs surviving the np.delete of every pair
with wstop > wbmax, where wbmax = fit_begin [ -1 ]
(find_candidate_functions.py lines 382, 390-392). -/
def keptPairs (fit_length fit_begin : List ℚ) : List (ℚ × ℚ) :=
  let wbmax := fit_begin.getLastD 0
  (candidatePairs fit_length fit_begin).filter (fun pr => decide (pr.2 ≤ wbmax))

/-- Translation of find_candidate_functions.make_mask
(find_candidate_functions.py lines 349-402).  Returns the top mask
( deep_rng > wstop ), the bottom mask ( deep_rng < wbegin ), both of
shape bins x candidates, and the per-candidate count n of bins lying
in neither mask. -/
def make_mask (fit_length fit_begin rng : List ℚ) :
    List (List Bool) × List (List Bool) × List ℕ :=
  let pairs := keptPairs fit_length fit_begin
  let wbegin := pairs.map (·.1)
  let wstop := pairs.map (·.2)
  let top_mask := rng.map (fun r => wstop.map (fun s => decide (s < r)))
  let bottom_mask := rng.map (fun r => wbegin.map (fun b => decide (r < b)))
  let n := (List.range pairs.length).map (fun c =>
    rng.countP (fun r => !(decide (r < wbegin.getD c 0) || decide (wstop.getD c 0 < r))))
  (top_mask, bottom_mask, n)

/-- Translation of find_candidate_functions.make_ovp_fc
(find_candidate_functions.py lines 454-517).  The mean log signal
signal_all and the per-candidate fit intercepts alpha = p [ 0 ] and
slopes beta = p [ 1 ] arrive as data, exactly as in the source; the
transcendental 10 ** x is the explicit parameter pow10 since no claim
depends on its values.  The source computes 10 ** diff everywhere and
then overwrites the entries of the top mask with 1; pointwise this is
the conditional below.  Returns ( overlap_corr_factor , ovp_fc ,
valmax ), with matrices of shape bins x candidates. -/
def make_ovp_fc (signal_all alpha beta : List ℚ) (ov rng : List ℚ)
    (top_mask : List (List Bool)) (pow10 : ℚ → ℚ) (min_overlap_valid : ℚ) :
    List (List ℚ) × List (List ℚ) × List ℚ :=
  let nc := (top_mask.headD []).length
  let factor := (List.range rng.length).map (fun i =>
    (List.range nc).map (fun c =>
      if (top_mask.getD i []).getD c false then 1
      else pow10 (signal_all.getD i 0 - (alpha.getD c 0 + beta.getD c 0 * rng.getD i 0))))
  let ovp_fc := (List.range rng.length).map (fun i =>
    (List.range nc).map (fun c => ov.getD i 0 * (factor.getD i []).getD c 0))
  let validBins := (List.range rng.length).filter
    (fun i => decide (min_overlap_valid ≤ rng.getD i 0))
  let valmax := (List.range nc).map (fun c =>
    listMaxD (validBins.map (fun i =>
      |ov.getD i 0 - (ovp_fc.getD i []).getD c 0| / |ov.getD i 0|)))
  (factor, ovp_fc, valmax)

/-- Translation of find_candidate_functions._check_conditions_2
(find_candidate_functions.py lines 538-546), as a 0/1 rational vector:
candidate c passes when the maximum of its corrected overlap function
is at most max_overlap_value times the maximum of the reference curve,
and its maximum relative error is below
thresh_overlap_valid_rel_error. -/
def check_conditions_2 (ovp_fc : List (List ℚ)) (ov : List ℚ) (valmax : List ℚ)
    (max_overlap_value thresh_overlap_valid_rel_error : ℚ) : List ℚ :=
  (List.range valmax.length).map (fun c =>
    boolToQ (decide (listMaxD (colD ovp_fc c) ≤ max_overlap_value * listMaxD ov)
      && decide (valmax.getD c 0 < thresh_overlap_valid_rel_error)))

/-- Result of Gate B, find_candidate_functions.check_relative_error.
The source returns either the computed quadruple ( ovp_fc ,
overlap_corr_factor , valmax , condition2 ) or, when Gate A passed
nothing, the same zero vector in all four positions; the two shapes
are distinguished here as the source distinguishes them dynamically. -/
inductive GateBOut where
  | computed (ovp_fc overlap_corr_factor : List (List ℚ)) (valmax condition2 : List ℚ)
  | skipped (fill : List ℚ)
deriving DecidableEq

/-- The condition2 vector handed to Gate C, which in the skipped case
is the zero fill (find_candidate_functions.py lines 180, 186). -/
def GateBOut.cond2 : GateBOut → List ℚ
  | .computed _ _ _ c => c
  | .skipped fill => fill

/-- Translation of find_candidate_functions.check_relative_error
(find_candidate_functions.py lines 121-186): when np.sum ( condition1 )
> 0 it builds the corrected overlap functions with make_ovp_fc and
multiplies _check_conditions_2 by condition1; otherwise it returns
np.zeros ( len ( condition1 ) ) in all four positions. -/
def check_relative_error (signal_all alpha beta : List ℚ) (ov rng : List ℚ)
    (top_mask : List (List Bool)) (pow10 : ℚ → ℚ)
    (min_overlap_valid max_overlap_value thresh_overlap_valid_rel_error : ℚ)
    (condition1 : List ℚ) : GateBOut :=
  if 0 < condition1.sum then
    let r := make_ovp_fc signal_all alpha beta ov rng top_mask pow10 min_overlap_valid
    let condition2 := (List.range condition1.length).map (fun c =>
      (check_conditions_2 r.2.1 ov r.2.2 max_overlap_value
        thresh_overlap_valid_rel_error).getD c 0 * condition1.getD c 0)
    .computed r.2.1 r.1 r.2.2 condition2
  else
    .skipped (List.replicate condition1.length 0)

/-- Result of Gate C, find_candidate_functions.
check_temporal_spatial_homogeneity: the computed triple ( relgrad_max ,
relgrad_mean , condition3 ) or the zero fill repeated. -/
inductive GateCOut where
  | computed (relgrad_max relgrad_mean condition3 : List ℚ)
  | skipped (fill : List ℚ)
deriving DecidableEq

/-- The condition3 vector handed to Gate D. -/
def GateCOut.cond3 : GateCOut → List ℚ
  | .computed _ _ c => c
  | .skipped fill => fill

/-- Translation of find_candidate_functions.
check_temporal_spatial_homogeneity (find_candidate_functions.py lines
188-290): when np.sum ( condition2 ) > 0 the source applies each
surviving correction factor to the interval signal block, convolves,
masks and reduces; that computation (lines 236-282, built on scipy
convolution, log10 and sqrt) is abstracted as the parameter homogCore,
because the claims here concern only the guard and the zero-filled
skip path (lines 232 and 286-290). -/
def check_temporal_spatial_homogeneity
    (homogCore : List ℚ → List ℚ × List ℚ × List ℚ)
    (condition2 : List ℚ) : GateCOut :=
  if 0 < condition2.sum then
    let r := homogCore condition2
    .computed r.1 r.2.1 r.2.2
  else
    .skipped (List.replicate condition2.length 0)

/-- Result of Gate D, find_candidate_functions.check_monotonic: the
computed triple ( val_min_slope , index_min_slope , condition4 ) or
the zero fill repeated. -/
inductive GateDOut where
  | computed (val_min_slope index_min_slope condition4 : List ℚ)
  | skipped (fill : List ℚ)
deriving DecidableEq

/-- Translation of find_candidate_functions.check_monotonic
(find_candidate_functions.py lines 292-347): when np.sum ( condition3 )
> 0 the source runs a Savitzky-Golay derivative filter over the
candidate curves; that computation (lines 331-341) is abstracted as
the parameter monoCore, because the claims here concern only the
guard and the zero-filled skip path (lines 329 and 343-347). -/
def check_monotonic (monoCore : List ℚ → List ℚ × List ℚ × List ℚ)
    (condition3 : List ℚ) : GateDOut :=
  if 0 < condition3.sum then
    let r := monoCore condition3
    .computed r.1 r.2.1 r.2.2
  else
    .skipped (List.replicate condition3.length 0)

/-- Index of the first entry of rng that is at least c, default 0;
models np.where ( rng >= c ) [ 0 ] [ 0 ] (the source never reaches
this with an empty index set). -/
def firstIdxGe (rng : List ℚ) (c : ℚ) : ℕ :=
  (((List.range rng.length).filter (fun i => decide (c ≤ rng.getD i 0))).headD 0)

/-- The index list np.where ( rng <= c ) [ 0 ]. -/
def idxsLe (rng : List ℚ) (c : ℚ) : List ℕ :=
  (List.range rng.length).filter (fun i => decide (rng.getD i 0 ≤ c))

/-- Index of the last entry of rng that is at most c, default 0;
models np.where ( rng <= c ) [ 0 ] [ -1 ]. -/
def lastIdxLe (rng : List ℚ) (c : ℚ) : ℕ :=
  (idxsLe rng c).getLastD 0

/-- Translation of find_fitting_windows.at_least_one_profile
(find_fitting_windows.py lines 18-44): passes unless every profile of
the interval is flagged as gap-filled. -/
def at_least_one_profile (flag : List Bool) : Bool :=
  !(flag.all id)

/-- Translation of find_fitting_windows.all_clear_sky
(find_fitting_windows.py lines 46-81): given the previous check,
passes when every sky-condition code of the interval is 0. -/
def all_clear_sky (check : Bool) (sci : List ℤ) : Bool :=
  if check then sci.all (· == 0) else false

/-- Translation of find_fitting_windows.enough_clear_range_cbi
(find_fitting_windows.py lines 83-134), with the caller-visible
cloud-base array made explicit: the source mutates the NumPy view cbi
in place through cbi [ cbi < 0 ] = 15000, so the third component
returns the contents of the caller's array after the call.  The pass
flag requires every per-profile minimum cloud base to be at least
min_fit_range + min_fit_length; the new maximum fit range is the
smallest per-profile minimum after clipping at max_fit_range. -/
def enough_clear_range_cbi (check : Bool) (cbi : List (List ℚ))
    (min_fit_range min_fit_length max_fit_range : ℚ) :
    Bool × ℚ × List (List ℚ) :=
  if check then
    let cbi2 := cbi.map (fun row => row.map (fun x => if x < 0 then 15000 else x))
    let lower_cbs := cbi2.map listMinD
    let result := lower_cbs.all (fun v => decide (min_fit_range + min_fit_length ≤ v))
    let clipped := lower_cbs.map (fun v => if max_fit_range ≤ v then max_fit_range else v)
    (result, listMinD clipped, cbi2)
  else
    (false, 0, cbi)

/-- Translation of find_fitting_windows.running_variance
(find_fitting_windows.py lines 136-231).  The vector std_over_mean
(the element-wise maximum over sliding sub-windows of std / median of
the log signal, source lines 195-213, built on log10 and nanstd) is
taken as already computed, with its source-guaranteed length max_r -
min_r supplied as a hypothesis where needed; the translated part is
the index search and range update of lines 187-231.  Returns ( pass ,
max_available_fit_range , variance diagnostic ). -/
def running_variance (check : Bool) (rng : List ℚ)
    (min_range_std_over_mean max_std_over_mean min_fit_range min_fit_length : ℚ)
    (std_over_mean : List ℚ) (max_available_fit_range : ℚ) : Bool × ℚ × ℚ :=
  if check then
    let min_r := lastIdxLe rng min_range_std_over_mean
    match (List.range std_over_mean.length).find?
        (fun i => decide (max_std_over_mean ≤ std_over_mean.getD i 0)) with
    | some ind =>
        let m := rng.getD (min_r + ind) 0
        (decide (min_fit_range + min_fit_length ≤ m), m, std_over_mean.getD ind 0)
    | none =>
        (decide (min_fit_range + min_fit_length ≤ max_available_fit_range),
          max_available_fit_range, 0)
  else
    (false, max_available_fit_range, 0)

/-- The interior altitude slice rconv = rng [ min_r + 1 : max_r - 1 ]
of find_fitting_windows.check_grads (find_fitting_windows.py lines
288-292). -/
def cg_rconv (rng : List ℚ) (min_range_std_over_mean max_available_fit_range : ℚ) :
    List ℚ :=
  (rng.drop (firstIdxGe rng min_range_std_over_mean + 1)).take
    (lastIdxLe rng max_available_fit_range - 1 -
      (firstIdxGe rng min_range_std_over_mean + 1))

/-- The index set np.where ( rconv >= lo ) [ 0 ] used to restrict the
gradient-maximum arrays in check_grads (find_fitting_windows.py lines
314 and 316). -/
def cg_filterIdxs (rconv : List ℚ) (lo : ℚ) : List ℕ :=
  (List.range rconv.length).filter (fun i => decide (lo ≤ rconv.getD i 0))

/-- The positions j, counted inside the lo-filtered subarray, whose
gradient maximum reaches the threshold: the index set
np.where ( relgrad [ np.where ( rconv >= lo ) ] >= thresh ) [ 0 ] of
check_grads (find_fitting_windows.py lines 314 and 316). -/
def cg_overPos (rconv relgrad : List ℚ) (lo thresh : ℚ) : List ℕ :=
  (List.range (cg_filterIdxs rconv lo).length).filter
    (fun j => decide (thresh ≤ relgrad.getD ((cg_filterIdxs rconv lo).getD j 0) 0))

/-- The limit m1 of check_grads (find_fitting_windows.py lines
318-322): set only when more than one position exceeds the threshold,
to the rconv entry at 10 plus the first exceeding position. -/
def cg_m1 (rng relgradYmax : List ℚ)
    (min_range_std_over_mean first_range_gradY max_relgrad
      max_available_fit_range : ℚ) : ℚ :=
  let rconv := cg_rconv rng min_range_std_over_mean max_available_fit_range
  let iY := cg_overPos rconv relgradYmax first_range_gradY max_relgrad
  if 1 < iY.length then rconv.getD (10 + iY.headD 0) 0
  else max_available_fit_range

/-- The limit m2 of check_grads (find_fitting_windows.py lines
324-328): set only when more than one position exceeds the threshold,
to the rconv entry at the first exceeding position. -/
def cg_m2 (rng relgradXmax : List ℚ)
    (min_range_std_over_mean max_relgrad max_available_fit_range : ℚ) : ℚ :=
  let rconv := cg_rconv rng min_range_std_over_mean max_available_fit_range
  let iX := cg_overPos rconv relgradXmax min_range_std_over_mean max_relgrad
  if 1 < iX.length then rconv.getD (iX.headD 0) 0
  else max_available_fit_range

/-- The diagnostic Y of check_grads (find_fitting_windows.py line
320). -/
def cg_Y (rng relgradYmax : List ℚ)
    (min_range_std_over_mean first_range_gradY max_relgrad
      max_available_fit_range : ℚ) : ℚ :=
  let rconv := cg_rconv rng min_range_std_over_mean max_available_fit_range
  let iY := cg_overPos rconv relgradYmax first_range_gradY max_relgrad
  if 1 < iY.length then relgradYmax.getD (iY.headD 0) 0 else 0

/-- The diagnostic X of check_grads (find_fitting_windows.py line
326). -/
def cg_X (rng relgradXmax : List ℚ)
    (min_range_std_over_mean max_relgrad max_available_fit_range : ℚ) : ℚ :=
  let rconv := cg_rconv rng min_range_std_over_mean max_available_fit_range
  let iX := cg_overPos rconv relgradXmax min_range_std_over_mean max_relgrad
  if 1 < iX.length then relgradXmax.getD (iX.headD 0) 0 else 0

/-- The index set irgradmagn of check_grads (find_fitting_windows.py
line 312). -/
def cg_irg (rconv : List ℚ) (first_range_gradY max_available_fit_range : ℚ) :
    List ℕ :=
  (List.range rconv.length).filter (fun i =>
    decide (first_range_gradY ≤ rconv.getD i 0) &&
      decide (rconv.getD i 0 ≤ max_available_fit_range))

/-- The limit m3 of check_grads (find_fitting_windows.py lines
330-338): scanning k from the top of irgradmagn down to 2, the first
contiguous chunk of the interior gradient-magnitude matrix whose
maximum and mean are within the thresholds sets m3 to the rconv entry
just below irgradmagn [ k ]. -/
def cg_m3 (rng : List ℚ) (relgradmagn_sub : List (List ℚ))
    (min_range_std_over_mean first_range_gradY max_relgrad max_relgrad_mean
      max_available_fit_range : ℚ) : ℚ :=
  let rconv := cg_rconv rng min_range_std_over_mean max_available_fit_range
  let irgradmagn := cg_irg rconv first_range_gradY max_available_fit_range
  let ks := (List.range (irgradmagn.length - 2)).map
    (fun t => irgradmagn.length - 1 - t)
  let chunkOK := fun (k : ℕ) =>
    let a := irgradmagn.getD 0 0
    let b := irgradmagn.getD k 0
    let chunk := (relgradmagn_sub.map (fun row => (row.drop a).take (b - a))).flatten
    decide (listMaxD chunk ≤ max_relgrad) && decide (listMeanD chunk ≤ max_relgrad_mean)
  match ks.find? chunkOK with
  | some k => rconv.getD (irgradmagn.getD k 0 - 1) 0
  | none => max_available_fit_range

/-- Translation of find_fitting_windows.check_grads
(find_fitting_windows.py lines 237-346).  The three relative-gradient
arrays (per-interior-bin maxima relgradYmax and relgradXmax and the
interior magnitude matrix relgradmagn [ 1:-1 , 1:-1 ], source lines
294-310, built on Sobel convolution, log10 and sqrt) are taken as
already computed; the translated part is the limit selection and range
update of lines 284-292 and 312-342.  Returns ( pass ,
max_available_fit_range , X , Y , m1 , m2 , m3 ). -/
def check_grads (check : Bool) (rng : List ℚ)
    (min_range_std_over_mean first_range_gradY max_relgrad max_relgrad_mean
      min_fit_range min_fit_length : ℚ)
    (relgradYmax relgradXmax : List ℚ) (relgradmagn_sub : List (List ℚ))
    (max_available_fit_range : ℚ) : Bool × ℚ × ℚ × ℚ × ℚ × ℚ × ℚ :=
  if check then
    let m1 := cg_m1 rng relgradYmax min_range_std_over_mean first_range_gradY
      max_relgrad max_available_fit_range
    let m2 := cg_m2 rng relgradXmax min_range_std_over_mean max_relgrad
      max_available_fit_range
    let m3 := cg_m3 rng relgradmagn_sub min_range_std_over_mean first_range_gradY
      max_relgrad max_relgrad_mean max_available_fit_range
    let mafr := min (min (min max_available_fit_range m1) m2) m3
    (decide (min_fit_range + min_fit_length ≤ mafr), mafr,
      cg_X rng relgradXmax min_range_std_over_mean max_relgrad
        max_available_fit_range,
      cg_Y rng relgradYmax min_range_std_over_mean first_range_gradY max_relgrad
        max_available_fit_range,
      m1, m2, m3)
  else
    (false, max_available_fit_range, 0, 0, 0, 0, 0)

/-- The claim-side reading of the gradient stage limit: the altitude
of the lowest interior bin at or above the first gradient range whose
relative gradient reaches the threshold, if any.  Written from the
specification sentence, for comparison with what check_grads
computes. -/
def lowestExceedAlt (rconv relgrad : List ℚ) (firstRange thresh : ℚ) : Option ℚ :=
  ((List.range rconv.length).filter (fun i =>
    decide (firstRange ≤ rconv.getD i 0) &&
      decide (thresh ≤ relgrad.getD i 0))).head?.map (fun i => rconv.getD i 0)

/-- Result of sort_samples.do_sort_checks, which dynamically returns
either the scalar False (no candidate passed all gates all day) or a
boolean vector over the surviving curves. -/
inductive SortChecksOut where
  | scalarFalse
  | flags (l : List Bool)
deriving DecidableEq

/-- np.sum over the result of do_sort_checks: False counts as 0 and a
boolean vector counts its True entries. -/
def sumPassed : SortChecksOut → ℕ
  | .scalarFalse => 0
  | .flags l => l.countP id

/-- Translation of sort_samples.do_sort_checks (sort_samples.py lines
141-175).  The argument ov_fcs is the stack of corrected overlap
curves of the candidates with pass_all true, as extracted by
get_ov_ok_info_df; the re-validation applied to small pools
(check_variance and check_rel_grad_magn, lines 153-171, built on
scipy convolution over the raw signal) is abstracted as the parameter
goodTests, because the claims here concern only the empty-pool
short-circuit of lines 147-149 and the skip branch of line 175. -/
def do_sort_checks (ov_fcs : List (List ℚ))
    (min_nb_samples_for_skipping_good_test : ℚ)
    (goodTests : List (List ℚ) → List Bool) : SortChecksOut :=
  if ov_fcs.length = 0 then .scalarFalse
  else if (ov_fcs.length : ℚ) ≤ min_nb_samples_for_skipping_good_test then
    .flags (goodTests ov_fcs)
  else
    .flags (List.replicate ov_fcs.length true)

/-- Translation of process_L1.Eprofile_Reader.get_final_overlapfunction
(process_L1.py lines 460-466): only when np.sum ( passed_inds ) is
nonzero does it call the final selection (remove_failed) and write a
result file; otherwise it does nothing.  The final selection and
write are abstracted as the parameter finalSelection, and the absent
result is none. -/
def get_final_overlapfunction {α : Type} (passed : SortChecksOut)
    (finalSelection : List Bool → α) : Option α :=
  if 0 < sumPassed passed then
    match passed with
    | .flags l => some (finalSelection l)
    | .scalarFalse => none
  else none

/-! Helper lemmas about list indexing used by the claim theorems. -/

theorem getD_eq_get {α : Type} (l : List α) (d : α) {i : ℕ} (h : i < l.length) :
    l.getD i d = l.get ⟨i, h⟩ := by
  simp [List.getD_eq_getElem?_getD, List.getElem?_eq_getElem h]

theorem getD_map_of_lt {α β : Type} (f : α → β) (l : List α) {i : ℕ}
    (h : i < l.length) (d : β) (d' : α) :
    (l.map f).getD i d = f (l.getD i d') := by
  rw [getD_eq_get _ _ (by simpa using h), getD_eq_get _ _ h]
  simp

theorem rangeMapGetD {α : Type} (n : ℕ) (f : ℕ → α) {i : ℕ} (h : i < n) (d : α) :
    ((List.range n).map f).getD i d = f i := by
  rw [getD_map_of_lt f _ (by simpa using h) d 0, getD_eq_get _ _ (by simpa using h)]
  simp

theorem pairwise_getD_mono (l : List ℚ) (h : List.Pairwise (· ≤ ·) l) {i j : ℕ}
    (hij : i ≤ j) (hj : j < l.length) : l.getD i 0 ≤ l.getD j 0 := by
  rcases Nat.lt_or_ge i j with hlt | hge
  · rw [getD_eq_get _ _ (lt_of_le_of_lt hij hj), getD_eq_get _ _ hj]
    exact List.pairwise_iff_get.mp h _ _ hlt
  · have : i = j := le_antisymm hij hge
    subst this
    exact le_rfl

theorem getLastD_mem {α : Type} (l : List α) (h : l ≠ []) (d : α) :
    l.getLastD d ∈ l := by
  rw [List.getLastD_eq_getLast?, List.getLast?_eq_getLast l h]
  exact List.getLast_mem h

theorem mem_idxsLe {rng : List ℚ} {c : ℚ} {i : ℕ} :
    i ∈ idxsLe rng c ↔ i < rng.length ∧ rng.getD i 0 ≤ c := by
  simp [idxsLe, List.mem_filter]

/-- C1: the aggregation output evaluated where a single curve (the
constant curve with value 1 on a one-bin grid) survives to the outlier
step: it passes the zero-width fence, the surviving stack is exactly
that curve, yet the returned final overlap curve is 1/2 rather than 1,
because np.nanmean averages over the all-zeros seed row of the vstack
as well.  This refutes the claim that the final curve is the bin-wise
mean of exactly the fence-passing curves. -/
theorem C1_final_mean_includes_seed :
    (remove_outliers [[1]] [0] 1).2.2 = [true] ∧
    (remove_outliers [[1]] [0] 1).1 = [[1]] ∧
    (remove_outliers [[1]] [0] 1).2.1 = [1/2] ∧ ((1 : ℚ)/2 ≠ 1) := by
  refine ⟨?_, ?_, ?_, ?_⟩
  · with_unfolding_all rfl
  · with_unfolding_all rfl
  · with_unfolding_all rfl
  · norm_num

/-- C4 counterexample: the cloud-base check run on an interval whose
cloud-base array holds the invalid sentinel -999 leaves the caller's
array changed (the sentinel becomes 15000), refuting the claim that
the arrays passed into the per-interval checks are unchanged. -/
theorem C4_counterexample :
    (enough_clear_range_cbi true [[-999, 2000, 3000]] 0 0 10000).2.2
      ≠ [[-999, 2000, 3000]] := by
  with_unfolding_all decide

/-- C4 amended: when the cloud-base check executes, the caller's
cloud-base array is left unchanged exactly when it holds no negative
entry; otherwise every negative entry has been overwritten in place
with 15000.  (The signal, sky-condition and validity arrays are only
read by the per-interval checks.) -/
theorem map_fix_iff {α : Type} (f : α → α) (l : List α) :
    l.map f = l ↔ ∀ x ∈ l, f x = x := by
  induction l with
  | nil => simp
  | cons a t ih => simp_all

theorem C4_amended_cbh_mutation (cbi : List (List ℚ)) (a b c : ℚ) :
    (enough_clear_range_cbi true cbi a b c).2.2 = cbi ↔
      ∀ row ∈ cbi, ∀ x ∈ row, 0 ≤ x := by
  have hval : (enough_clear_range_cbi true cbi a b c).2.2
      = cbi.map (fun row => row.map (fun x => if x < 0 then 15000 else x)) := by
    simp [enough_clear_range_cbi]
  rw [hval, map_fix_iff]
  refine forall₂_congr ?_
  intro row _
  rw [map_fix_iff]
  refine forall₂_congr ?_
  intro x _
  constructor
  · intro h
    by_contra hneg
    push_neg at hneg
    rw [if_pos hneg] at h
    rw [← h] at hneg
    norm_num at hneg
  · intro h
    rw [if_neg (not_lt.mpr h)]

/-- C4 amended witness: the mutation characterization applied at a
concrete cloud-base array with no negative entry, which the check
therefore leaves unchanged. -/
theorem C4_amended_cbh_mutation_witness :
    ((enough_clear_range_cbi true [[1, 2, 3]] 0 0 10000).2.2 = [[1, 2, 3]] ↔
      ∀ row ∈ ([[1, 2, 3]] : List (List ℚ)), ∀ x ∈ row, 0 ≤ x) :=
  C4_amended_cbh_mutation [[1, 2, 3]] 0 0 10000

/-- C9: when no candidate in the whole day carries a true aggregate
pass flag, the extracted pool of surviving curves is empty,
do_sort_checks returns the scalar False, and
get_final_overlapfunction neither runs the final selection nor writes
anything: the day yields no final overlap curve and no error. -/
theorem C9_empty_day_no_output (minNb : ℚ)
    (goodTests : List (List ℚ) → List Bool) {α : Type}
    (finalSelection : List Bool → α) :
    do_sort_checks [] minNb goodTests = .scalarFalse ∧
    get_final_overlapfunction (do_sort_checks [] minNb goodTests)
      finalSelection = none := by
  constructor
  · rfl
  · rfl

/-- C8: when Gate A passes no candidate (its condition vector is all
zeros), Gate B returns the zero fill without building any overlap
function, the condition vector it passes on is that zero fill, so
Gates C and D likewise take their skip branches; every per-candidate
output of Gates B-D is the zero vector of the grid length and no gate
core is evaluated. -/
theorem C8_gates_skip_zero_filled
    (signal_all alpha beta ov rng : List ℚ) (top_mask : List (List Bool))
    (pow10 : ℚ → ℚ) (mov maxOv threl : ℚ)
    (homogCore monoCore : List ℚ → List ℚ × List ℚ × List ℚ)
    (condition1 : List ℚ) (h : ∀ v ∈ condition1, v = 0) :
    check_relative_error signal_all alpha beta ov rng top_mask pow10 mov maxOv
        threl condition1 = .skipped (List.replicate condition1.length 0) ∧
    check_temporal_spatial_homogeneity homogCore
        (check_relative_error signal_all alpha beta ov rng top_mask pow10 mov maxOv
          threl condition1).cond2 = .skipped (List.replicate condition1.length 0) ∧
    check_monotonic monoCore
        (check_temporal_spatial_homogeneity homogCore
          (check_relative_error signal_all alpha beta ov rng top_mask pow10 mov maxOv
            threl condition1).cond2).cond3
        = .skipped (List.replicate condition1.length 0) := by
  have hsum : condition1.sum = 0 := List.sum_eq_zero h
  have hB : check_relative_error signal_all alpha beta ov rng top_mask pow10 mov maxOv
      threl condition1 = .skipped (List.replicate condition1.length 0) := by
    unfold check_relative_error
    rw [hsum]
    simp
  have hcond2 : (check_relative_error signal_all alpha beta ov rng top_mask pow10 mov
      maxOv threl condition1).cond2 = List.replicate condition1.length 0 := by
    rw [hB]
    rfl
  have hC : check_temporal_spatial_homogeneity homogCore
      (check_relative_error signal_all alpha beta ov rng top_mask pow10 mov maxOv
        threl condition1).cond2 = .skipped (List.replicate condition1.length 0) := by
    rw [hcond2]
    unfold check_temporal_spatial_homogeneity
    simp
  have hcond3 : (check_temporal_spatial_homogeneity homogCore
      (check_relative_error signal_all alpha beta ov rng top_mask pow10 mov maxOv
        threl condition1).cond2).cond3 = List.replicate condition1.length 0 := by
    rw [hC]
    rfl
  have hD : check_monotonic monoCore
      (check_temporal_spatial_homogeneity homogCore
        (check_relative_error signal_all alpha beta ov rng top_mask pow10 mov maxOv
          threl condition1).cond2).cond3
      = .skipped (List.replicate condition1.length 0) := by
    rw [hcond3]
    unfold check_monotonic
    simp
  exact ⟨hB, hC, hD⟩

/-- C8 witness: the chain above evaluated at a concrete two-candidate
grid with Gate A passing nothing. -/
theorem C8_gates_skip_zero_filled_witness :
    check_relative_error [] [] [] [] [] [] (fun _ => 0) 0 0 0 [0, 0]
        = .skipped (List.replicate 2 0) ∧
    check_temporal_spatial_homogeneity (fun _ => ([], [], []))
        (check_relative_error [] [] [] [] [] [] (fun _ => 0) 0 0 0 [0, 0]).cond2
        = .skipped (List.replicate 2 0) ∧
    check_monotonic (fun _ => ([], [], []))
        (check_temporal_spatial_homogeneity (fun _ => ([], [], []))
          (check_relative_error [] [] [] [] [] [] (fun _ => 0) 0 0 0 [0, 0]).cond2).cond3
        = .skipped (List.replicate 2 0) := by
  have := C8_gates_skip_zero_filled [] [] [] [] [] [] (fun _ => 0) 0 0 0
    (fun _ => ([], [], [])) (fun _ => ([], [], [])) [0, 0]
    (by
      intro v hv
      simp only [List.mem_cons, List.not_mem_nil, or_false] at hv
      rcases hv with h | h <;> exact h)
  simpa using this

/-- C2 counterexample: with min_fit_range 0, d_fit_range 1,
max_available_fit_range 3/2, min_fit_length 3/10, the grid window with
start 1 and length 3/10 satisfies start + length = 13/10 ≤ 3/2, yet it
is deleted before mask construction, because the filter keeps only
windows with stop at most the last grid start fb [ -1 ] = 1.  This
refutes the claim that exactly the windows with start + length ≤
max_available_fit_range are kept. -/
theorem C2_counterexample :
    ((1 : ℚ), (13/10 : ℚ)) ∈
        candidatePairs (flGrid (3/10) (13/10) 1) (fbGrid 0 (3/2) 1) ∧
    ((13/10 : ℚ) ≤ 3/2) ∧
    ((1 : ℚ), (13/10 : ℚ)) ∉
        keptPairs (flGrid (3/10) (13/10) 1) (fbGrid 0 (3/2) 1) := by
  refine ⟨?_, by norm_num, ?_⟩
  · with_unfolding_all decide
  · with_unfolding_all decide

/-- C2 amended: a window of the configured grid is evaluated by the
quality-gate cascade exactly when start + length is at most the
largest grid start below max_available_fit_range (the last entry of
the fb grid), which is strictly smaller than
max_available_fit_range itself whenever the grid step does not land
on it. -/
theorem C2_amended_grid_filter (mfl Mfl dfl mfr dfr maxAvail b s : ℚ)
    (hfb : fbGrid mfr maxAvail dfr ≠ []) :
    (b, s) ∈ keptPairs (flGrid mfl Mfl dfl) (fbGrid mfr maxAvail dfr) ↔
      ((b, s) ∈ candidatePairs (flGrid mfl Mfl dfl) (fbGrid mfr maxAvail dfr) ∧
        s ≤ (fbGrid mfr maxAvail dfr).getLast hfb) := by
  have hlast : (fbGrid mfr maxAvail dfr).getLastD 0
      = (fbGrid mfr maxAvail dfr).getLast hfb := by
    rw [List.getLastD_eq_getLast?, List.getLast?_eq_getLast _ hfb]
    rfl
  unfold keptPairs
  rw [List.mem_filter, hlast]
  simp

/-- C2 amended witness: the characterization applied at the concrete
grid of the counterexample. -/
theorem C2_amended_grid_filter_witness :
    ((0 : ℚ), (3/10 : ℚ)) ∈
        keptPairs (flGrid (3/10) (13/10) 1) (fbGrid 0 (3/2) 1) ↔
      (((0 : ℚ), (3/10 : ℚ)) ∈
          candidatePairs (flGrid (3/10) (13/10) 1) (fbGrid 0 (3/2) 1) ∧
        (3/10 : ℚ) ≤ (fbGrid 0 (3/2) 1).getLast
          (by with_unfolding_all decide)) :=
  C2_amended_grid_filter (3/10) (13/10) 1 0 1 (3/2) 0 (3/10) _

theorem running_variance_le (check : Bool) (rng : List ℚ)
    (c0 thrV mfr mfl : ℚ) (som : List ℚ) (maxAvail : ℚ)
    (hsort : List.Pairwise (· ≤ ·) rng)
    (hne : idxsLe rng maxAvail ≠ [])
    (hlen : som.length = lastIdxLe rng maxAvail - lastIdxLe rng c0) :
    (running_variance check rng c0 thrV mfr mfl som maxAvail).2.1 ≤ maxAvail := by
  unfold running_variance
  cases check with
  | false => simp
  | true =>
    simp only [if_true]
    rcases hfind : (List.range som.length).find?
        (fun i => decide (thrV ≤ som.getD i 0)) with _ | ind
    · simp [hfind]
    · simp only [hfind]
      have hind : ind < som.length :=
        List.mem_range.mp (List.mem_of_find?_eq_some hfind)
      have hmaxmem : lastIdxLe rng maxAvail ∈ idxsLe rng maxAvail :=
        getLastD_mem _ hne 0
      obtain ⟨hmlt, hmle⟩ := mem_idxsLe.mp hmaxmem
      have hle : lastIdxLe rng c0 + ind ≤ lastIdxLe rng maxAvail := by omega
      exact le_trans (pairwise_getD_mono rng hsort hle hmlt) hmle

theorem check_grads_le (check : Bool) (rng : List ℚ)
    (c0 frY thr thrM mfr mfl : ℚ) (ymax xmax : List ℚ)
    (magn : List (List ℚ)) (m : ℚ) :
    (check_grads check rng c0 frY thr thrM mfr mfl ymax xmax magn m).2.1 ≤ m := by
  unfold check_grads
  cases check with
  | false => simp
  | true =>
    simp only [if_true]
    exact (min_le_left _ _).trans ((min_le_left _ _).trans (min_le_left _ _))

/-- C5: through the pre-check cascade the maximum available fit range
never grows: the running-variance check returns a value at most the
value it received (its new limit is an altitude below the previous
cut-off, or the unchanged value), the gradient check returns the
minimum of the previous value with its three limits, and hence the
value leaving the gradient check is at most the value that entered the
running-variance check from the cloud-base check. -/
theorem C5_max_range_nonincreasing (check : Bool) (rng : List ℚ)
    (c0 thrV mfr mfl : ℚ) (som : List ℚ) (maxAvail : ℚ)
    (cgCheck : Bool) (c0g frY thrG thrM mfrG mflG : ℚ)
    (ymax xmax : List ℚ) (magn : List (List ℚ))
    (hsort : List.Pairwise (· ≤ ·) rng)
    (hne : idxsLe rng maxAvail ≠ [])
    (hlen : som.length = lastIdxLe rng maxAvail - lastIdxLe rng c0) :
    (running_variance check rng c0 thrV mfr mfl som maxAvail).2.1 ≤ maxAvail ∧
    (check_grads cgCheck rng c0g frY thrG thrM mfrG mflG ymax xmax magn
        maxAvail).2.1 ≤ maxAvail ∧
    (check_grads cgCheck rng c0g frY thrG thrM mfrG mflG ymax xmax magn
        ((running_variance check rng c0 thrV mfr mfl som maxAvail).2.1)).2.1
      ≤ maxAvail := by
  have h1 := running_variance_le check rng c0 thrV mfr mfl som maxAvail hsort hne hlen
  exact ⟨h1, check_grads_le _ _ _ _ _ _ _ _ _ _ _ _,
    le_trans (check_grads_le _ _ _ _ _ _ _ _ _ _ _ _) h1⟩

/-- C5 witness: the cascade tail evaluated on a concrete sorted range
with a variance exceedance at the second monitored bin: the new limit
2 is at most the entering limit 3, and the gradient stage keeps it
non-increasing. -/
theorem C5_max_range_nonincreasing_witness :
    (running_variance true [0, 1, 2, 3] 1 1 0 0 [0, 5] 3).2.1 ≤ 3 ∧
    (check_grads true [0, 1, 2, 3] 0 0 1 1 0 0 [] [] [] 3).2.1 ≤ 3 ∧
    (check_grads true [0, 1, 2, 3] 0 0 1 1 0 0 [] [] []
        ((running_variance true [0, 1, 2, 3] 1 1 0 0 [0, 5] 3).2.1)).2.1 ≤ 3 :=
  C5_max_range_nonincreasing true [0, 1, 2, 3] 1 1 0 0 [0, 5] 3
    true 0 0 1 1 0 0 [] [] []
    (by decide)
    (by with_unfolding_all decide)
    (by with_unfolding_all rfl)

/-- C6: for every candidate window kept on the grid, the corrected
overlap correction factor at any altitude bin strictly above that
window's end equals exactly 1: the bin lies in the top mask, so the
source overwrites the computed factor with 1 there, whatever the fit
and the signal were. -/
theorem C6_factor_above_window_is_one
    (fl fb rng signal_all alpha beta ov : List ℚ) (pow10 : ℚ → ℚ) (mov : ℚ)
    (i c : ℕ) (hi : i < rng.length) (hc : c < (keptPairs fl fb).length)
    (hstop : ((keptPairs fl fb).getD c (0, 0)).2 < rng.getD i 0) :
    (((make_ovp_fc signal_all alpha beta ov rng (make_mask fl fb rng).1
        pow10 mov).1).getD i []).getD c 0 = 1 := by
  have htm : (make_mask fl fb rng).1
      = rng.map (fun r =>
          ((keptPairs fl fb).map (·.2)).map (fun s => decide (s < r))) := by
    simp [make_mask]
  rw [htm]
  obtain ⟨r0, rest, hrng⟩ : ∃ r0 rest, rng = r0 :: rest := by
    cases rng with
    | nil => simp at hi
    | cons r0 rest => exact ⟨r0, rest, rfl⟩
  subst hrng
  unfold make_ovp_fc
  simp only []
  have hnc : ((((r0 :: rest).map (fun r =>
      ((keptPairs fl fb).map (·.2)).map (fun s => decide (s < r)))).headD []).length)
      = (keptPairs fl fb).length := by
    simp
  rw [rangeMapGetD _ _ hi]
  rw [rangeMapGetD _ _ (by rw [hnc]; exact hc)]
  rw [getD_map_of_lt _ _ hi [] 0]
  rw [getD_map_of_lt _ _ (by simpa using hc) false 0]
  rw [getD_map_of_lt (·.2) _ hc 0 (0, 0)]
  rw [if_pos (decide_eq_true hstop)]

/-- C6 witness: at the concrete grid with one kept window (start 0,
stop 1) and range [0, 1, 2], the bin at altitude 2 lies strictly above
the window end and its correction factor is exactly 1. -/
theorem C6_factor_above_window_is_one_witness :
    (((make_ovp_fc [] [] [] [] [0, 1, 2] (make_mask [1] [0, 1] [0, 1, 2]).1
        (fun _ => 0) 0).1).getD 2 []).getD 0 0 = 1 :=
  C6_factor_above_window_is_one [1] [0, 1] [0, 1, 2] [] [] [] [] (fun _ => 0) 0
    2 0 (by decide) (by with_unfolding_all decide)
    (by with_unfolding_all decide)

theorem prctile_singleton (v p : ℚ) : prctile [v] p = v := rfl

/-- C10: when exactly one curve reaches the outlier-rejection step,
its 25th, 50th and 75th percentiles at every bin equal the curve's own
value there, the whisker fence has zero width, and the curve always
passes the fence test: a single survivor is never dropped as an
outlier. -/
theorem C10_single_survivor_passes (curve rng : List ℚ) (w : ℚ) :
    (∀ j, j < rng.length →
      ((pcList [curve] rng 25).getD j 0 = curve.getD j 0 ∧
       (pcList [curve] rng 50).getD j 0 = curve.getD j 0 ∧
       (pcList [curve] rng 75).getD j 0 = curve.getD j 0)) ∧
    (remove_outliers [curve] rng w).2.2 = [true] := by
  have hcol : ∀ j : ℕ, colD [curve] j = [curve.getD j 0] := fun j => rfl
  have hpc : ∀ (p : ℚ) (j : ℕ), j < rng.length →
      (pcList [curve] rng p).getD j 0 = curve.getD j 0 := by
    intro p j hj
    unfold pcList
    rw [rangeMapGetD _ _ hj, hcol j, prctile_singleton]
  have hminus : ∀ j, j < rng.length →
      (outliersMinus [curve] rng w).getD j 0 = curve.getD j 0 := by
    intro j hj
    unfold outliersMinus
    rw [rangeMapGetD _ _ hj, hcol j, prctile_singleton, prctile_singleton,
      prctile_singleton]
    ring
  have hplus : ∀ j, j < rng.length →
      (outliersPlus [curve] rng w).getD j 0 = curve.getD j 0 := by
    intro j hj
    unfold outliersPlus
    rw [rangeMapGetD _ _ hj, hcol j, prctile_singleton, prctile_singleton,
      prctile_singleton]
    ring
  have hlenm : (outliersMinus [curve] rng w).length = rng.length := by
    simp [outliersMinus]
  have hlenp : (outliersPlus [curve] rng w).length = rng.length := by
    simp [outliersPlus]
  have hrow : rowPasses curve (outliersMinus [curve] rng w)
      (outliersPlus [curve] rng w) = true := by
    unfold rowPasses
    rw [Bool.not_eq_true', Bool.or_eq_false_iff]
    constructor
    · rw [List.any_eq_false]
      intro pr hpr
      obtain ⟨i, hilt, hpre⟩ := List.mem_iff_getElem.mp hpr
      have hic : i < curve.length := List.lt_length_left_of_zip hilt
      have him : i < (outliersMinus [curve] rng w).length :=
        List.lt_length_right_of_zip hilt
      rw [List.getElem_zip] at hpre
      subst hpre
      simp only [decide_eq_true_eq]
      have hv : (outliersMinus [curve] rng w)[i] = curve[i] := by
        have h1 := getD_eq_get (outliersMinus [curve] rng w) 0 him
        have h2 := getD_eq_get curve 0 hic
        rw [List.get_eq_getElem] at h1 h2
        rw [← h1, ← h2]
        exact hminus i (hlenm ▸ him)
      rw [hv]
      exact lt_irrefl _
    · rw [List.any_eq_false]
      intro pr hpr
      obtain ⟨i, hilt, hpre⟩ := List.mem_iff_getElem.mp hpr
      have hic : i < curve.length := List.lt_length_left_of_zip hilt
      have him : i < (outliersPlus [curve] rng w).length :=
        List.lt_length_right_of_zip hilt
      rw [List.getElem_zip] at hpre
      subst hpre
      simp only [decide_eq_true_eq]
      have hv : (outliersPlus [curve] rng w)[i] = curve[i] := by
        have h1 := getD_eq_get (outliersPlus [curve] rng w) 0 him
        have h2 := getD_eq_get curve 0 hic
        rw [List.get_eq_getElem] at h1 h2
        rw [← h1, ← h2]
        exact hplus i (hlenp ▸ him)
      rw [hv]
      exact lt_irrefl _
  refine ⟨fun j hj => ⟨hpc 25 j hj, hpc 50 j hj, hpc 75 j hj⟩, ?_⟩
  unfold remove_outliers
  simp only [List.map_cons, List.map_nil, hrow]

/-- C10 witness: the single-survivor property at the concrete curve
[2, 5] over a two-bin range. -/
theorem C10_single_survivor_passes_witness :
    ((pcList [[2, 5]] [0, 1] 25).getD 0 0 = ([2, 5] : List ℚ).getD 0 0 ∧
     (pcList [[2, 5]] [0, 1] 50).getD 0 0 = ([2, 5] : List ℚ).getD 0 0 ∧
     (pcList [[2, 5]] [0, 1] 75).getD 0 0 = ([2, 5] : List ℚ).getD 0 0) ∧
    (remove_outliers [[2, 5]] [0, 1] 3).2.2 = [true] :=
  ⟨(C10_single_survivor_passes [2, 5] [0, 1] 3).1 0 (by decide),
   (C10_single_survivor_passes [2, 5] [0, 1] 3).2⟩

theorem headD_filter_spec (l : List ℕ) (p : ℕ → Bool)
    (hl : List.Pairwise (· < ·) l) (hne : l.filter p ≠ []) :
    (l.filter p).headD 0 ∈ l ∧ p ((l.filter p).headD 0) = true ∧
      ∀ j ∈ l, j < (l.filter p).headD 0 → p j = false := by
  induction l with
  | nil => simp at hne
  | cons a t ih =>
    rcases List.pairwise_cons.mp hl with ⟨ha, ht⟩
    by_cases hpa : p a
    · rw [List.filter_cons_of_pos hpa]
      refine ⟨List.mem_cons_self a t, hpa, ?_⟩
      intro j hj hja
      rcases List.mem_cons.mp hj with rfl | hjt
      · exact absurd hja (lt_irrefl _)
      · exact absurd hja (not_lt.mpr (le_of_lt (ha j hjt)))
    · rw [List.filter_cons_of_neg hpa]
      rw [List.filter_cons_of_neg hpa] at hne
      obtain ⟨hmem, hp, hleast⟩ := ih ht hne
      refine ⟨List.mem_cons_of_mem a hmem, hp, ?_⟩
      intro j hj hja
      rcases List.mem_cons.mp hj with rfl | hjt
      · exact Bool.of_not_eq_true hpa
      · exact hleast j hjt hja

/-- C3 counterexample: a concrete interval where the altitude-relative
gradient exceeds the threshold at the two lowest interior bins
(altitudes 1 and 2 of rconv).  The claim predicts m1 = 1, the altitude
of the lowest exceeding bin; check_grads instead sets m1 = 11, the
entry ten interior bins higher, because of the fixed + 10 offset in
rconv [ 10 + i_first_over_thresh_relgradY [ 0 ] [ 0 ] ]. -/
theorem C3_counterexample :
    (check_grads true [0, 1, 2, 3, 4, 5, 6, 7, 8, 9, 10, 11, 12, 13, 14, 15, 16]
        0 0 1 1 0 0
        [9, 9, 0, 0, 0, 0, 0, 0, 0, 0, 0, 0, 0, 0]
        [0, 0, 0, 0, 0, 0, 0, 0, 0, 0, 0, 0, 0, 0]
        [[9, 9, 0, 0, 0, 0, 0, 0, 0, 0, 0, 0, 0, 0]] 100).2.2.2.2.1 = 11 ∧
    lowestExceedAlt
        (cg_rconv [0, 1, 2, 3, 4, 5, 6, 7, 8, 9, 10, 11, 12, 13, 14, 15, 16] 0 100)
        [9, 9, 0, 0, 0, 0, 0, 0, 0, 0, 0, 0, 0, 0] 0 1 = some 1 ∧
    ((11 : ℚ) ≠ 1) := by
  refine ⟨?_, ?_, by norm_num⟩
  · with_unfolding_all rfl
  · with_unfolding_all rfl

set_option maxHeartbeats 3200000 in
/-- C3 amended: the m1 branch (and likewise m2) fires only when at
least TWO interior bins in the filtered range reach the gradient
threshold (the source tests the index count with > 1, not > 0); when
it fires, m1 is the rconv entry at 10 plus the position, within the
filtered subarray, of the lowest exceeding bin (the position is the
least index whose filtered gradient value reaches the threshold), not
the altitude of that bin itself; m2 is the rconv entry at that
position without the offset; and the stage's new maximum available fit
range is min ( previous , m1 , m2 , m3 ). -/
theorem C3_amended_gradient_limits (rng : List ℚ)
    (c0 frY thr thrM mfr mfl : ℚ) (ymax xmax : List ℚ)
    (magn : List (List ℚ)) (maxAvail : ℚ) :
    ((1 < (cg_overPos (cg_rconv rng c0 maxAvail) ymax frY thr).length →
      (check_grads true rng c0 frY thr thrM mfr mfl ymax xmax magn
          maxAvail).2.2.2.2.1
        = (cg_rconv rng c0 maxAvail).getD
            (10 + (cg_overPos (cg_rconv rng c0 maxAvail) ymax frY thr).headD 0) 0 ∧
      (thr ≤ ymax.getD ((cg_filterIdxs (cg_rconv rng c0 maxAvail) frY).getD
          ((cg_overPos (cg_rconv rng c0 maxAvail) ymax frY thr).headD 0) 0) 0) ∧
      (∀ j < (cg_overPos (cg_rconv rng c0 maxAvail) ymax frY thr).headD 0,
        ¬ thr ≤ ymax.getD
          ((cg_filterIdxs (cg_rconv rng c0 maxAvail) frY).getD j 0) 0)) ∧
    ((cg_overPos (cg_rconv rng c0 maxAvail) ymax frY thr).length ≤ 1 →
      (check_grads true rng c0 frY thr thrM mfr mfl ymax xmax magn
          maxAvail).2.2.2.2.1 = maxAvail) ∧
    (1 < (cg_overPos (cg_rconv rng c0 maxAvail) xmax c0 thr).length →
      (check_grads true rng c0 frY thr thrM mfr mfl ymax xmax magn
          maxAvail).2.2.2.2.2.1
        = (cg_rconv rng c0 maxAvail).getD
            ((cg_overPos (cg_rconv rng c0 maxAvail) xmax c0 thr).headD 0) 0) ∧
    ((cg_overPos (cg_rconv rng c0 maxAvail) xmax c0 thr).length ≤ 1 →
      (check_grads true rng c0 frY thr thrM mfr mfl ymax xmax magn
          maxAvail).2.2.2.2.2.1 = maxAvail) ∧
    (check_grads true rng c0 frY thr thrM mfr mfl ymax xmax magn maxAvail).2.1
      = min (min (min maxAvail
          (check_grads true rng c0 frY thr thrM mfr mfl ymax xmax magn
            maxAvail).2.2.2.2.1)
          (check_grads true rng c0 frY thr thrM mfr mfl ymax xmax magn
            maxAvail).2.2.2.2.2.1)
        (check_grads true rng c0 frY thr thrM mfr mfl ymax xmax magn
          maxAvail).2.2.2.2.2.2) := by
  have hm1 : (check_grads true rng c0 frY thr thrM mfr mfl ymax xmax magn
      maxAvail).2.2.2.2.1 = cg_m1 rng ymax c0 frY thr maxAvail := rfl
  have hm2 : (check_grads true rng c0 frY thr thrM mfr mfl ymax xmax magn
      maxAvail).2.2.2.2.2.1 = cg_m2 rng xmax c0 thr maxAvail := rfl
  have hm3 : (check_grads true rng c0 frY thr thrM mfr mfl ymax xmax magn
      maxAvail).2.2.2.2.2.2 = cg_m3 rng magn c0 frY thr thrM maxAvail := rfl
  have hmafr : (check_grads true rng c0 frY thr thrM mfr mfl ymax xmax magn
      maxAvail).2.1
      = min (min (min maxAvail (cg_m1 rng ymax c0 frY thr maxAvail))
          (cg_m2 rng xmax c0 thr maxAvail))
        (cg_m3 rng magn c0 frY thr thrM maxAvail) := rfl
  refine ⟨?_, ?_, ?_, ?_, ?_⟩
  · intro h
    refine ⟨?_, ?_, ?_⟩
    · rw [hm1]
      show (if 1 < (cg_overPos (cg_rconv rng c0 maxAvail) ymax frY thr).length then
          (cg_rconv rng c0 maxAvail).getD
            (10 + (cg_overPos (cg_rconv rng c0 maxAvail) ymax frY thr).headD 0) 0
        else maxAvail) = _
      rw [if_pos h]
    · have hne : cg_overPos (cg_rconv rng c0 maxAvail) ymax frY thr ≠ [] := by
        intro hempty
        rw [hempty] at h
        simp at h
      have hspec := headD_filter_spec
        (List.range (cg_filterIdxs (cg_rconv rng c0 maxAvail) frY).length)
        (fun j => decide (thr ≤ ymax.getD
          ((cg_filterIdxs (cg_rconv rng c0 maxAvail) frY).getD j 0) 0))
        (List.pairwise_lt_range _) hne
      exact of_decide_eq_true hspec.2.1
    · intro j hj
      have hne : cg_overPos (cg_rconv rng c0 maxAvail) ymax frY thr ≠ [] := by
        intro hempty
        rw [hempty] at h
        simp at h
      have hspec := headD_filter_spec
        (List.range (cg_filterIdxs (cg_rconv rng c0 maxAvail) frY).length)
        (fun j => decide (thr ≤ ymax.getD
          ((cg_filterIdxs (cg_rconv rng c0 maxAvail) frY).getD j 0) 0))
        (List.pairwise_lt_range _) hne
      have hhead_mem := hspec.1
      have hjmem : j ∈ List.range
          (cg_filterIdxs (cg_rconv rng c0 maxAvail) frY).length :=
        List.mem_range.mpr (lt_trans hj (List.mem_range.mp hhead_mem))
      have := hspec.2.2 j hjmem hj
      exact of_decide_eq_false this
  · intro h
    rw [hm1]
    show (if 1 < (cg_overPos (cg_rconv rng c0 maxAvail) ymax frY thr).length then
        (cg_rconv rng c0 maxAvail).getD
          (10 + (cg_overPos (cg_rconv rng c0 maxAvail) ymax frY thr).headD 0) 0
      else maxAvail) = maxAvail
    rw [if_neg (not_lt.mpr h)]
  · intro h
    rw [hm2]
    show (if 1 < (cg_overPos (cg_rconv rng c0 maxAvail) xmax c0 thr).length then
        (cg_rconv rng c0 maxAvail).getD
          ((cg_overPos (cg_rconv rng c0 maxAvail) xmax c0 thr).headD 0) 0
      else maxAvail) = _
    rw [if_pos h]
  · intro h
    rw [hm2]
    show (if 1 < (cg_overPos (cg_rconv rng c0 maxAvail) xmax c0 thr).length then
        (cg_rconv rng c0 maxAvail).getD
          ((cg_overPos (cg_rconv rng c0 maxAvail) xmax c0 thr).headD 0) 0
      else maxAvail) = maxAvail
    rw [if_neg (not_lt.mpr h)]
  · rw [hmafr, hm1, hm2, hm3]

/-- C3 amended witness: the amended characterization applied at the
concrete interval of the counterexample, where the altitude gradient
exceeds the threshold at two positions (so m1 takes the offset entry)
and the time gradient exceeds it nowhere (so m2 keeps the previous
range). -/
theorem C3_amended_gradient_limits_witness :
    (check_grads true [0, 1, 2, 3, 4, 5, 6, 7, 8, 9, 10, 11, 12, 13, 14, 15, 16]
        0 0 1 1 0 0
        [9, 9, 0, 0, 0, 0, 0, 0, 0, 0, 0, 0, 0, 0]
        [0, 0, 0, 0, 0, 0, 0, 0, 0, 0, 0, 0, 0, 0]
        [[9, 9, 0, 0, 0, 0, 0, 0, 0, 0, 0, 0, 0, 0]] 100).2.2.2.2.1
      = (cg_rconv [0, 1, 2, 3, 4, 5, 6, 7, 8, 9, 10, 11, 12, 13, 14, 15, 16] 0 100).getD
          (10 + (cg_overPos
            (cg_rconv [0, 1, 2, 3, 4, 5, 6, 7, 8, 9, 10, 11, 12, 13, 14, 15, 16] 0 100)
            [9, 9, 0, 0, 0, 0, 0, 0, 0, 0, 0, 0, 0, 0] 0 1).headD 0) 0 ∧
    (check_grads true [0, 1, 2, 3, 4, 5, 6, 7, 8, 9, 10, 11, 12, 13, 14, 15, 16]
        0 0 1 1 0 0
        [9, 9, 0, 0, 0, 0, 0, 0, 0, 0, 0, 0, 0, 0]
        [0, 0, 0, 0, 0, 0, 0, 0, 0, 0, 0, 0, 0, 0]
        [[9, 9, 0, 0, 0, 0, 0, 0, 0, 0, 0, 0, 0, 0]] 100).2.2.2.2.2.1 = 100 :=
  ⟨((C3_amended_gradient_limits
      [0, 1, 2, 3, 4, 5, 6, 7, 8, 9, 10, 11, 12, 13, 14, 15, 16] 0 0 1 1 0 0
      [9, 9, 0, 0, 0, 0, 0, 0, 0, 0, 0, 0, 0, 0]
      [0, 0, 0, 0, 0, 0, 0, 0, 0, 0, 0, 0, 0, 0]
      [[9, 9, 0, 0, 0, 0, 0, 0, 0, 0, 0, 0, 0, 0]] 100).1
    (by with_unfolding_all decide)).1,
   (C3_amended_gradient_limits
      [0, 1, 2, 3, 4, 5, 6, 7, 8, 9, 10, 11, 12, 13, 14, 15, 16] 0 0 1 1 0 0
      [9, 9, 0, 0, 0, 0, 0, 0, 0, 0, 0, 0, 0, 0]
      [0, 0, 0, 0, 0, 0, 0, 0, 0, 0, 0, 0, 0, 0]
      [[9, 9, 0, 0, 0, 0, 0, 0, 0, 0, 0, 0, 0, 0]] 100).2.2.2.1
    (by with_unfolding_all decide)⟩

theorem getD_mem {α : Type} (l : List α) (d : α) {i : ℕ} (h : i < l.length) :
    l.getD i d ∈ l := by
  rw [getD_eq_get _ _ h]
  exact List.get_mem _ _ _

theorem interpPairs_node (ps : List (ℚ × ℚ))
    (hmono : List.Pairwise (fun a b : ℚ × ℚ => a.1 < b.1) ps) (k : ℕ)
    (hk : k < ps.length) :
    interpPairs (ps.getD k (0, 0)).1 ps = (ps.getD k (0, 0)).2 := by
  induction ps generalizing k with
  | nil => simp at hk
  | cons p tail ih =>
    obtain ⟨x0, y0⟩ := p
    rcases List.pairwise_cons.mp hmono with ⟨hhead, htail⟩
    cases k with
    | zero =>
      cases tail with
      | nil => simp [interpPairs]
      | cons q tail2 =>
        obtain ⟨x1, y1⟩ := q
        simp only [List.getD_cons_zero]
        show interpPairs x0 ((x0, y0) :: (x1, y1) :: tail2) = y0
        simp only [interpPairs]
        rw [if_pos le_rfl]
    | succ k' =>
      have hk' : k' < tail.length := by
        simpa using Nat.lt_of_succ_lt_succ hk
      cases tail with
      | nil => simp at hk'
      | cons q tail2 =>
        obtain ⟨x1, y1⟩ := q
        simp only [List.getD_cons_succ]
        have hx0 : x0 < (((x1, y1) :: tail2).getD k' (0, 0)).1 :=
          hhead _ (getD_mem _ _ hk')
        show interpPairs (((x1, y1) :: tail2).getD k' (0, 0)).1
          ((x0, y0) :: (x1, y1) :: tail2) = (((x1, y1) :: tail2).getD k' (0, 0)).2
        simp only [interpPairs]
        rw [if_neg (not_le.mpr hx0)]
        cases k' with
        | zero =>
          simp only [List.getD_cons_zero] at hx0 ⊢
          rw [if_pos le_rfl]
          have hne : x1 - x0 ≠ 0 := sub_ne_zero.mpr (ne_of_gt hx0)
          field_simp
        | succ k'' =>
          have hk'' : k'' < tail2.length := by
            simpa using Nat.lt_of_succ_lt_succ hk'
          rcases List.pairwise_cons.mp htail with ⟨hhead2, _⟩
          have hx1 : x1 < ((tail2).getD k'' (0, 0)).1 :=
            hhead2 _ (getD_mem _ _ hk'')
          simp only [List.getD_cons_succ] at hx0 ⊢
          rw [if_neg (not_le.mpr hx1)]
          have := ih htail (k'' + 1) (by simpa using hk')
          simpa using this

theorem interpPairs_segment (ps : List (ℚ × ℚ))
    (hmono : List.Pairwise (fun a b : ℚ × ℚ => a.1 < b.1) ps) (k : ℕ)
    (hk : k + 1 < ps.length) (x : ℚ)
    (h1 : (ps.getD k (0, 0)).1 ≤ x) (h2 : x < (ps.getD (k + 1) (0, 0)).1) :
    interpPairs x ps
      = (ps.getD k (0, 0)).2
        + ((ps.getD (k + 1) (0, 0)).2 - (ps.getD k (0, 0)).2)
          * (x - (ps.getD k (0, 0)).1)
          / ((ps.getD (k + 1) (0, 0)).1 - (ps.getD k (0, 0)).1) := by
  induction ps generalizing k with
  | nil => simp at hk
  | cons p tail ih =>
    obtain ⟨x0, y0⟩ := p
    rcases List.pairwise_cons.mp hmono with ⟨hhead, htail⟩
    have htl : k < tail.length := by
      simpa using Nat.lt_of_succ_lt_succ hk
    cases tail with
    | nil => simp at htl
    | cons q tail2 =>
      obtain ⟨x1, y1⟩ := q
      cases k with
      | zero =>
        simp only [List.getD_cons_zero, List.getD_cons_succ] at h1 h2 ⊢
        simp only [interpPairs]
        by_cases hx : x ≤ x0
        · rw [if_pos hx]
          have hxeq : x = x0 := le_antisymm hx h1
          subst hxeq
          simp
        · rw [if_neg hx, if_pos (le_of_lt h2)]
      | succ k' =>
        simp only [List.getD_cons_succ] at h1 h2 ⊢
        have htl' : k' < ((x1, y1) :: tail2).length := Nat.lt_of_succ_lt htl
        have hx0lt : x0 < (((x1, y1) :: tail2).getD k' (0, 0)).1 :=
          hhead _ (getD_mem _ _ htl')
        simp only [interpPairs]
        rw [if_neg (not_le.mpr (lt_of_lt_of_le hx0lt h1))]
        cases k' with
        | zero =>
          simp only [List.getD_cons_zero, List.getD_cons_succ] at h1 h2 hx0lt ⊢
          by_cases hx1 : x ≤ x1
          · rw [if_pos hx1]
            have hxeq : x = x1 := le_antisymm hx1 h1
            rw [hxeq]
            have hne : x1 - x0 ≠ 0 := sub_ne_zero.mpr (ne_of_gt (hxeq ▸ hx0lt))
            rw [sub_self, mul_zero, zero_div, add_zero]
            field_simp
          · rw [if_neg hx1]
            have hk2 : 0 + 1 < ((x1, y1) :: tail2).length := by
              simp only [List.length_cons] at hk ⊢
              omega
            have := ih htail 0 hk2 (by simpa using h1) (by simpa using h2)
            simpa using this
        | succ k'' =>
          have hk'' : k'' < tail2.length := by
            simp only [List.length_cons] at htl
            omega
          rcases List.pairwise_cons.mp htail with ⟨hhead2, _⟩
          have hx1lt : x1 < ((tail2).getD k'' (0, 0)).1 :=
            hhead2 _ (getD_mem _ _ hk'')
          have hx1le : x1 < (((x1, y1) :: tail2).getD (k'' + 1) (0, 0)).1 := by
            simpa using hx1lt
          rw [if_neg (not_le.mpr (lt_of_lt_of_le hx1le h1))]
          have hk2 : (k'' + 1) + 1 < ((x1, y1) :: tail2).length := by
            simp only [List.length_cons] at hk ⊢
            omega
          have := ih htail (k'' + 1) hk2 h1 h2
          simpa using this

theorem rankPositions_pairwise (n : ℕ) (hn : 0 < n) :
    List.Pairwise (· < ·) (rankPositions n) := by
  unfold rankPositions
  rw [List.pairwise_map]
  refine List.Pairwise.imp ?_ (List.pairwise_lt_range n)
  intro i j hij
  have h2n : (0 : ℚ) < 2 * n := by
    have : (0 : ℚ) < n := by exact_mod_cast hn
    linarith
  rw [div_lt_div_iff₀ h2n h2n]
  have hij' : (i : ℚ) < j := by exact_mod_cast hij
  nlinarith

theorem pairwise_fst_zip (l1 : List ℚ) (l2 : List ℚ)
    (h : List.Pairwise (· < ·) l1) :
    List.Pairwise (fun a b : ℚ × ℚ => a.1 < b.1) (l1.zip l2) := by
  rw [List.pairwise_iff_getElem] at h ⊢
  intro i j hi hj hij
  simp only [List.getElem_zip]
  exact h i j (List.lt_length_left_of_zip hi) (List.lt_length_left_of_zip hj) hij

theorem getD_zip (l1 l2 : List ℚ) {k : ℕ} (h1 : k < l1.length)
    (h2 : k < l2.length) :
    (l1.zip l2).getD k (0, 0) = (l1.getD k 0, l2.getD k 0) := by
  have hz : k < (l1.zip l2).length := by
    rw [List.length_zip]
    exact lt_min h1 h2
  rw [getD_eq_get _ _ hz, getD_eq_get _ _ h1, getD_eq_get _ _ h2]
  simp [List.get_eq_getElem, List.getElem_zip]

theorem rankPositions_getD (n k : ℕ) (hk : k < n) :
    (rankPositions n).getD k 0 = (2 * (k : ℚ) + 1) / (2 * n) := by
  unfold rankPositions
  rw [rangeMapGetD _ _ hk]

/-- C7: the quantile routine used for the outlier fences realizes the
Matlab-compatible rank convention and not NumPy's default.  First
part: at each rank position (2k-1)/(2n), k = 1..n, the returned value
is exactly the k-th smallest sample value.  Second part: between two
consecutive rank positions the returned value is the linear
interpolant of the two adjacent order statistics.  Third part: on the
concrete sample [0, 1] the 25th percentile returned is 0, whereas
NumPy's default linear (type-7) percentile is 1/4, so the two
conventions differ. -/
theorem C7_matlab_percentile_convention :
    (∀ (x : List ℚ) (k : ℕ), k < x.length →
      quantile x ((2 * ((k : ℚ) + 1) - 1) / (2 * x.length))
        = (x.insertionSort (· ≤ ·)).getD k 0) ∧
    (∀ (x : List ℚ) (k : ℕ) (t : ℚ), k + 1 < x.length → 0 ≤ t → t < 1 →
      quantile x ((1 - t) * ((2 * ((k : ℚ) + 1) - 1) / (2 * x.length))
          + t * ((2 * ((k : ℚ) + 2) - 1) / (2 * x.length)))
        = (1 - t) * (x.insertionSort (· ≤ ·)).getD k 0
          + t * (x.insertionSort (· ≤ ·)).getD (k + 1) 0) ∧
    (quantile [0, 1] (25 / 100) = 0 ∧
      npPercentileLinear [0, 1] (25 / 100) = 1 / 4 ∧ ((0 : ℚ) ≠ 1 / 4)) := by
  have hylen : ∀ x : List ℚ, (x.insertionSort (· ≤ ·)).length = x.length :=
    fun x => List.length_insertionSort _ x
  have hplen : ∀ n : ℕ, (rankPositions n).length = n := by
    intro n
    simp [rankPositions]
  refine ⟨?_, ?_, ?_, ?_, by norm_num⟩
  · intro x k hk
    have hn : 0 < x.length := lt_of_le_of_lt (Nat.zero_le k) hk
    have hzk : k < ((rankPositions x.length).zip (x.insertionSort (· ≤ ·))).length := by
      rw [List.length_zip, hplen, hylen, min_self]
      exact hk
    have hmono := pairwise_fst_zip _ (x.insertionSort (· ≤ ·))
      (rankPositions_pairwise _ hn)
    have hnode := interpPairs_node _ hmono k hzk
    rw [getD_zip _ _ (by rw [hplen]; exact hk) (by rw [hylen]; exact hk)] at hnode
    show interpPairs _ ((rankPositions x.length).zip (x.insertionSort (· ≤ ·)))
      = (x.insertionSort (· ≤ ·)).getD k 0
    have hpos : ((2 * ((k : ℚ) + 1) - 1) / (2 * (x.length : ℚ)))
        = (rankPositions x.length).getD k 0 := by
      rw [rankPositions_getD _ _ hk]
      ring_nf
    rw [hpos]
    exact hnode
  · intro x k t hk ht0 ht1
    have hn : 0 < x.length := by omega
    have hk0 : k < x.length := by omega
    have hzk : k + 1 < ((rankPositions x.length).zip (x.insertionSort (· ≤ ·))).length := by
      rw [List.length_zip, hplen, hylen, min_self]
      exact hk
    have hmono := pairwise_fst_zip _ (x.insertionSort (· ≤ ·))
      (rankPositions_pairwise _ hn)
    have hpk := rankPositions_getD x.length k hk0
    have hpk1 := rankPositions_getD x.length (k + 1) hk
    have h2n : (0 : ℚ) < 2 * x.length := by
      have : (0 : ℚ) < x.length := by exact_mod_cast hn
      linarith
    have hdpos : (0 : ℚ)
        < (rankPositions x.length).getD (k + 1) 0
          - (rankPositions x.length).getD k 0 := by
      rw [hpk, hpk1, sub_pos, div_lt_div_iff₀ h2n h2n]
      push_cast
      nlinarith
    have harg : (1 - t) * ((2 * ((k : ℚ) + 1) - 1) / (2 * x.length))
          + t * ((2 * ((k : ℚ) + 2) - 1) / (2 * x.length))
        = (1 - t) * (rankPositions x.length).getD k 0
          + t * (rankPositions x.length).getD (k + 1) 0 := by
      rw [hpk, hpk1]
      push_cast
      ring
    have h1 : (rankPositions x.length).getD k 0
        ≤ (1 - t) * (rankPositions x.length).getD k 0
          + t * (rankPositions x.length).getD (k + 1) 0 := by
      nlinarith [mul_nonneg ht0 (le_of_lt hdpos)]
    have h2 : (1 - t) * (rankPositions x.length).getD k 0
          + t * (rankPositions x.length).getD (k + 1) 0
        < (rankPositions x.length).getD (k + 1) 0 := by
      nlinarith [mul_pos (by linarith : (0 : ℚ) < 1 - t) hdpos]
    have hseg := interpPairs_segment _ hmono k hzk
      ((1 - t) * (rankPositions x.length).getD k 0
        + t * (rankPositions x.length).getD (k + 1) 0)
      (by rw [getD_zip _ _ (by rw [hplen]; exact hk0) (by rw [hylen]; exact hk0)]; exact h1)
      (by rw [getD_zip _ _ (by rw [hplen]; exact hk) (by rw [hylen]; exact hk)]; exact h2)
    rw [getD_zip _ _ (by rw [hplen]; exact hk0) (by rw [hylen]; exact hk0),
      getD_zip _ _ (by rw [hplen]; exact hk) (by rw [hylen]; exact hk)] at hseg
    show interpPairs _ ((rankPositions x.length).zip (x.insertionSort (· ≤ ·))) = _
    rw [harg, hseg]
    have hne : (rankPositions x.length).getD (k + 1) 0
        - (rankPositions x.length).getD k 0 ≠ 0 := ne_of_gt hdpos
    have hratio : ((1 - t) * (rankPositions x.length).getD k 0
          + t * (rankPositions x.length).getD (k + 1) 0
          - (rankPositions x.length).getD k 0)
        / ((rankPositions x.length).getD (k + 1) 0
          - (rankPositions x.length).getD k 0) = t := by
      rw [div_eq_iff hne]
      ring
    rw [mul_div_assoc, hratio]
    ring
  · with_unfolding_all rfl
  · with_unfolding_all rfl

/-- C7 witness: the rank convention evaluated on the concrete sample
[3, 1, 2]: the median rank position (2 times 2 - 1)/6 returns the
middle order statistic, and the interpolation between the first two
rank positions at t = 1/2 returns their average. -/
theorem C7_matlab_percentile_convention_witness :
    quantile [3, 1, 2] ((2 * ((1 : ℚ) + 1) - 1) / (2 * ([3, 1, 2] : List ℚ).length))
      = (([3, 1, 2] : List ℚ).insertionSort (· ≤ ·)).getD 1 0 ∧
    quantile [3, 1, 2]
        ((1 - (1/2 : ℚ)) * ((2 * ((0 : ℚ) + 1) - 1) / (2 * ([3, 1, 2] : List ℚ).length))
          + (1/2 : ℚ) * ((2 * ((0 : ℚ) + 2) - 1) / (2 * ([3, 1, 2] : List ℚ).length)))
      = (1 - (1/2 : ℚ)) * (([3, 1, 2] : List ℚ).insertionSort (· ≤ ·)).getD 0 0
        + (1/2 : ℚ) * (([3, 1, 2] : List ℚ).insertionSort (· ≤ ·)).getD 1 0 :=
  ⟨C7_matlab_percentile_convention.1 [3, 1, 2] 1 (by decide),
   C7_matlab_percentile_convention.2.1 [3, 1, 2] 0 (1/2) (by decide)
     (by norm_num) (by norm_num)⟩

end OverlapProbe
